import Mathlib

/-!
Verification of the resource-pack bot (`bot/`): a shallow embedding of the
pure logic of `bot/exts/mc/pack.py`, `bot/utils/checks.py` and
`bot/utils/formatters.py`, together with theorems about the embedded
definitions.  Machine integers are modelled as `Nat`/`Int`, Python floats as
`ℚ`, and the external libraries (discord, youtube_dl, pydub) as explicit
parameters or small abstract structures.

The file is organised as definitions first, theorems second.
-/

namespace PackBot

/-! ## Configuration (`bot/core/config.py`, class `Audio`) -/

namespace settings

namespace audio

def bitrate : String := "64k"

def sample_rate : ℕ := 32000

def fade_duration : ℕ := 1000

def max_loudness : ℤ := -16

def max_download_size : ℕ := 20971520

def max_filesize : ℕ := 5242880

def button_timeout : ℕ := 30

def download_timeout : ℕ := 600

end audio

end settings

/-! ## Byte formatting (`bot/utils/formatters.py`, `format_bytes`)

`format_bytes(num, metric=False, precision=1)` walks the unit-label list,
dividing `num` by the unit step until it drops below
`unit_step - precision_offsets[precision]`, then renders
`"{}{:.pf} {}".format(sign, num, unit)`.  Python floats are modelled as `ℚ`
(division by the steps 1000/1024 is exact in binary floating point);
`precision` is an index into two four-element tables, so it is a `Fin 4`
(Python raises `IndexError` outside `0..3`). -/

def metric_labels : List String :=
  ["B", "kB", "MB", "GB", "TB", "PB", "EB", "ZB", "YB"]

def binary_labels : List String :=
  ["B", "KiB", "MiB", "GiB", "TiB", "PiB", "EiB", "ZiB", "YiB"]

def precision_offset : Fin 4 → ℚ
  | 0 => 0.5
  | 1 => 0.05
  | 2 => 0.005
  | 3 => 0.0005

/-- Left-pad a digit string with zeros to length `n`
(models the zero padding of `"{:.pf}"` fraction digits). -/
def pad_zeros (s : String) (n : ℕ) : String :=
  String.mk (List.replicate (n - s.length) '0') ++ s

/-- Round to the nearest integer, ties to even: the rounding used by
Python's fixed-point float formatting. -/
def round_half_even (q : ℚ) : ℤ :=
  let f := ⌊q⌋
  let frac := q - f
  if frac < 1 / 2 then f
  else if 1 / 2 < frac then f + 1
  else if f % 2 = 0 then f else f + 1

/-- Models `"{:.pf}".format(q)` for a float `q` with `p` fraction digits. -/
def render_fixed (q : ℚ) (precision : ℕ) : String :=
  let scaled := round_half_even (q * 10 ^ precision)
  let mag := scaled.natAbs
  let ip := mag / 10 ^ precision
  let fp := mag % 10 ^ precision
  (if scaled < 0 then "-" else "") ++ toString ip ++
    (if precision = 0 then "" else "." ++ pad_zeros (toString fp) precision)

/-- The `for unit in unit_labels:` loop of `format_bytes`: break when
`num < unit_step_thresh`, otherwise divide by `unit_step` unless the label is
the last one; `unit` holds the label of the last iteration. -/
def pick_unit (unit_step_thresh unit_step : ℚ) (last_label : String) :
    ℚ → String → List String → ℚ × String
  | num, unit, [] => (num, unit)
  | num, _, u :: rest =>
    if num < unit_step_thresh then (num, u)
    else pick_unit unit_step_thresh unit_step last_label
      (if u ≠ last_label then num / unit_step else num) u rest

def format_bytes (num : ℚ) (metric : Bool) (precision : Fin 4) : String :=
  let unit_labels := if metric then metric_labels else binary_labels
  let last_label := unit_labels.getLastD ""
  let unit_step : ℚ := if metric then 1000 else 1024
  let unit_step_thresh := unit_step - precision_offset precision
  let n := if num < 0 then -num else num
  let p := pick_unit unit_step_thresh unit_step last_label n "" unit_labels
  (if num < 0 then "-" else "") ++ render_fixed p.1 precision ++ " " ++ p.2

/-! ## Link support check (`bot/utils/checks.py`, `is_url_supported`) -/

/-- Modelled from the spec: the contents of
`bot/resources/supported_extensions.json` — the configured list of
directly-downloadable audio/video extensions loaded at import time — are not
under `src/`; per the spec it lists the ffmpeg input formats and in
particular covers `.mp3`. -/
def SUPPORTED_EXTENSIONS : List String :=
  [".mp3", ".wav", ".ogg", ".flac", ".m4a", ".opus", ".mp4", ".webm"]

/-- `str.endswith`, computed on the character lists. -/
def str_endswith (s suffix : String) : Bool :=
  suffix.data.isSuffixOf s.data

/-- A registered youtube_dl site extractor, abstracted to what
`is_url_supported` consumes: its `suitable(url)` predicate and its
`IE_NAME`. -/
structure Extractor where
  suitable : String → Bool
  ie_name : String

/-- `is_url_supported(url)`: true when the url ends with a supported
extension, or some registered extractor other than the `generic` fallback is
suitable for it.  The extractor registry is passed explicitly. -/
def is_url_supported (extractors : List Extractor) (url : String) : Bool :=
  if SUPPORTED_EXTENSIONS.any (fun ext => str_endswith url ext) then true
  else extractors.any (fun e => e.suitable url && e.ie_name != "generic")

/-! ## Audio normalization (`Pack.normalize_sound`, pack.py lines 530-570)

pydub is external: an `AudioSegment` is modelled as its source file plus the
list of operations applied to it, and the measured loudness `dBFS` of a clip
is an explicit oracle parameter. -/

inductive AudioOp where
  | slice (start_ms end_ms : ℤ)
  | fade_in (duration : ℕ)
  | fade_out (duration : ℕ)
  | apply_gain (db : ℚ)
deriving DecidableEq

structure AudioSegment where
  source : String
  ops : List AudioOp
deriving DecidableEq

/-- A filesystem path, reduced to what `normalize_sound` uses: a stem and a
suffix (the extension, including its dot, possibly empty). -/
structure FsPath where
  stem : String
  suffix : String
deriving DecidableEq

/-- `pathlib.Path.with_suffix`: replace the extension. -/
def FsPath.with_suffix (p : FsPath) (s : String) : FsPath :=
  ⟨p.stem, s⟩

/-- Modelled from the spec: `pydub.AudioSegment.from_file` loads the file at
`path`; the fresh segment carries no operations. -/
def AudioSegment.from_file (path : FsPath) : AudioSegment :=
  ⟨path.stem ++ path.suffix, []⟩

/-- The result of `sound.export(...)` at the end of `normalize_sound`. -/
structure ExportResult where
  out_path : FsPath
  out_format : String
  parameters : List String
  bitrate : String
  audio : AudioSegment
deriving DecidableEq

/-- `Pack.normalize_sound(path, start_time, end_time, out_format, bitrate,
sample_rate, fade_duration, loudness)`.  Python truthiness of the `int`
arguments is `≠ 0`; the slice `sound[start_time * 1000:end_time * 1000]`
works in milliseconds; `loudness - sound.dBFS` uses the measured loudness of
the already sliced and faded clip, supplied by the `dBFS` oracle. -/
def normalize_sound (dBFS : AudioSegment → ℚ) (path : FsPath)
    (start_time end_time : ℕ) (out_format : String) (bitrate : String)
    (sample_rate : ℕ) (fade_duration : ℕ) (loudness : ℤ) : ExportResult :=
  let sound := AudioSegment.from_file path
  let sound := if end_time ≠ 0 then
      { sound with
        ops := sound.ops ++ [.slice (start_time * 1000) (end_time * 1000)] }
    else sound
  let sound := if fade_duration ≠ 0 then
      { sound with
        ops := sound.ops ++ [.fade_in fade_duration, .fade_out fade_duration] }
    else sound
  let sound := if loudness ≠ 0 then
      { sound with
        ops := sound.ops ++ [.apply_gain ((loudness : ℚ) - dBFS sound)] }
    else sound
  { out_path := path.with_suffix ("." ++ out_format)
    out_format := out_format
    parameters := ["-ar", toString sample_rate]
    bitrate := bitrate
    audio := sound }

/-! ## Max-trim ceiling (`Pack.manage`, pack.py lines 183-216)

The source computes `original_duration`,
`minutes, seconds = divmod(original_duration, 60)`, the float
`ratio = (minutes * 60 + seconds) / size`, then
`max_duration = int(settings.audio.max_filesize * ratio)` clamped to
`original_duration`.  Floats are modelled as `ℚ`; `int()` of a nonnegative
value is `Nat.floor`.  The file-size limit is a parameter so that its
monotonicity can be stated. -/

def max_trim_duration (original_duration size max_filesize : ℕ) : ℕ :=
  let minutes := original_duration / 60
  let seconds := original_duration % 60
  let ratio : ℚ := ((minutes * 60 + seconds : ℕ) : ℚ) / (size : ℚ)
  let max_duration := Nat.floor ((max_filesize : ℚ) * ratio)
  if max_duration > original_duration then original_duration else max_duration

/-! ## The accept path of the add flow (`Pack.manage`, pack.py lines 245-356)

After the confirmation view is sent, `manage` waits on the view with
`timeout=settings.audio.button_timeout * 2`.  `view.value` is `None` on
timeout, `False` on cancel, and `True` when the "Add sound file" button (and
its modal) was used.  On accept, the modal's start/end times are parsed with
`strptime("%M:%S")` and converted to seconds; the model below starts from the
parsed values.  The user-visible effects are modelled as a list of
`UIAction`s: a `send`/`edit` carries the embed description from the source,
and `submit_download` marks `self.bot.pool.submit(self.bot.ydl.download, ...)`.
The model covers the flow up to the download submission. -/

inductive UIAction where
  | send (description : String)
  | edit (description : String)
  | submit_download
deriving DecidableEq

/-- The outcome of waiting on the confirmation view: `view.value` is `None`
(`no_response`), `False` (`cancel`) or `True` with the modal's content. -/
inductive ModalResp where
  | no_response
  | cancel
  | accept (event_name : String) (start_time end_time : ℕ)
deriving DecidableEq

/-- Timeout passed to the confirmation `View` (pack.py line 245):
`settings.audio.button_timeout * 2`. -/
def view_timeout_seconds : ℕ := settings.audio.button_timeout * 2

/-- Time-window validation (pack.py lines 288-326).  The three checks are
guarded by `if start_time or end_time != original_duration:`; each failing
check sends the corresponding embed description and returns. -/
def validate_times (original_duration max_duration start_time end_time : ℕ) :
    Option String :=
  if start_time ≠ 0 ∨ end_time ≠ original_duration then
    if start_time > original_duration then some "The start time is invalid."
    else if end_time > max_duration then some "The end time is invalid."
    else if start_time > end_time then some "The start time is greater than the end time."
    else none
  else none

/-- The actions performed after `view.wait()` resolves (pack.py lines
251-356), up to the download submission. -/
def after_button_wait (original_duration max_duration size : ℕ)
    (resp : ModalResp) : List UIAction :=
  match resp with
  | .no_response => [.send "You did not select a button in time."]
  | .cancel => [.send "You cancelled the process."]
  | .accept _ start_time end_time =>
    match validate_times original_duration max_duration start_time end_time with
    | some m => [.send m]
    | none =>
      if size > settings.audio.max_download_size then
        [.send ("File size must be less than **" ++
          format_bytes (settings.audio.max_download_size : ℚ) false 1 ++ "**.")]
      else [.submit_download]

/-! ## The download progress loop (`Pack.manage`, pack.py lines 356-379)

```
async with timeout(settings.audio.download_timeout):
    while self.bot.ydl_progress["status"] != "finished":
        if self.bot.ydl_progress["status"] == "downloading":
            await msg.edit(embed=embed)
            await asyncio.sleep(1)
        elif self.bot.ydl_progress["status"] in ("downloading", ""):
            continue
        else:
            break
```

The shared progress snapshot is written by the background download thread;
the loop is modelled over the sequence of statuses it observes, one
observation per iteration (a finite trace; an exhausted trace is
`out_of_trace`, an artifact of the embedding).  Each "downloading"
observation sleeps exactly 1 second; the surrounding `async_timeout` can only
fire at an await point, so the timeout is checked when a sleep would exceed
`download_timeout`.  A "" observation re-enters the loop without sleeping.
An uncaught `TimeoutError` ends the session (`manage` has no handler). -/

inductive DownloadExit where
  | finished (slept : ℕ)
  | failed (status : String) (slept : ℕ)
  | timed_out
  | out_of_trace
deriving DecidableEq

def download_loop (download_timeout : ℕ) : ℕ → List String → DownloadExit
  | _, [] => .out_of_trace
  | slept, s :: rest =>
    if s = "finished" then .finished slept
    else if s = "downloading" then
      if slept + 1 > download_timeout then .timed_out
      else download_loop download_timeout (slept + 1) rest
    else if s = "downloading" ∨ s = "" then download_loop download_timeout slept rest
    else .failed s slept

/-- A status on which the loop keeps looping: "downloading" or "". -/
def busy_status (s : String) : Bool :=
  s == "downloading" || s == ""

/-- The number of 1-second polls before the first terminal status: the
"downloading" observations in the busy prefix of the trace. -/
def poll_count (trace : List String) : ℕ :=
  (trace.takeWhile busy_status).count "downloading"

/-- The first status that is neither "downloading" nor "". -/
def first_terminal (trace : List String) : Option String :=
  (trace.dropWhile busy_status).head?

/-- One observation of the shared `ydl_progress` snapshot: the fields the
loop body reads. -/
structure ProgressSnapshot where
  status : String
  percent_str : String
  speed_str : String
  eta_str : String

/-- The embed description built in the "downloading" branch (pack.py lines
363-370). -/
def progress_description (p : ProgressSnapshot) : String :=
  "• Percentage: **" ++ p.percent_str ++ "**\n" ++
  "• Speed: **" ++ p.speed_str ++ "**\n" ++
  "• Time remaining: **" ++ p.eta_str ++ "**"

def UIAction.is_send : UIAction → Bool
  | .send _ => true
  | _ => false

/-- The user-visible actions emitted by the loop iterations: the
"downloading" branch edits the progress message (then sleeps, where the
deadline can cut the loop off), every other branch performs no user-visible
action. -/
def download_loop_actions (download_timeout : ℕ) :
    ℕ → List ProgressSnapshot → List UIAction
  | _, [] => []
  | slept, p :: rest =>
    if p.status = "finished" then []
    else if p.status = "downloading" then
      UIAction.edit (progress_description p) ::
        (if slept + 1 > download_timeout then []
         else download_loop_actions download_timeout (slept + 1) rest)
    else if p.status = "downloading" ∨ p.status = "" then
      download_loop_actions download_timeout slept rest
    else []

/-- The user-visible actions of `manage` from entering the
`async with timeout(settings.audio.download_timeout)` block (pack.py line
358) until the session ends, on a run whose download loop hits the deadline:
the progress edits of the loop iterations and nothing else — the
`TimeoutError` raised at the deadline propagates out of `manage`, whose only
handler is the `strptime` `except ValueError` (pack.py lines 269-272), so no
further action, in particular no send reporting the timeout to the user,
follows. -/
def manage_actions_on_timeout (download_timeout : ℕ)
    (trace : List ProgressSnapshot) : List UIAction :=
  download_loop_actions download_timeout 0 trace

/-! ## The removal dropdown (`SoundDropdown.__init__`, pack.py lines 84-108)

```
seen = set()
sound_files = {
    (message, attachement) for message, attachement in sound_files
    if attachement.filename not in seen and not seen.add(attachement.filename)
}
options = [SelectOption(...) for msg, attachment
           in sorted(sound_files, key=lambda x: x[1].filename)]
```

A discord message is reduced to an opaque id, an attachment to the fields the
dropdown reads.  The set comprehension with the side-effecting `seen` test
keeps, for every filename, exactly its first occurrence in iteration order;
`dedup_by_filename` computes those survivors in input order.  The Python
value is an unordered set which `sorted` enumerates in an unspecified order
before sorting by filename; the spec theorem therefore quantifies over every
permutation of the deduplicated list. -/

structure Attachment where
  filename : String
  description : String
  size : ℤ
deriving DecidableEq

structure SelectOption where
  label : String
  value : String
  description : String
deriving DecidableEq

/-- `filename.rsplit(".", maxsplit=1)[0]`: everything before the last dot,
or the whole string when it has no dot. -/
def remove_extension (s : String) : String :=
  if '.' ∈ s.data then
    String.mk ((s.data.reverse.dropWhile (fun c => c ≠ '.')).drop 1).reverse
  else s

/-- The `SelectOption(...)` built for one `(msg, attachment)` pair. -/
def mk_select_option (msg_att : ℕ × Attachment) : SelectOption :=
  { label := remove_extension msg_att.2.filename
    value := msg_att.2.filename
    description := msg_att.2.description ++ " (" ++
      format_bytes (msg_att.2.size : ℚ) false 2 ++ ")" }

/-- The survivors of the deduplicating set comprehension, in input order:
keeps the first pair carrying each filename. -/
def dedup_by_filename :
    List (ℕ × Attachment) → List String → List (ℕ × Attachment)
  | [], _ => []
  | (m, a) :: rest, seen =>
    if a.filename ∈ seen then dedup_by_filename rest seen
    else (m, a) :: dedup_by_filename rest (a.filename :: seen)

/-- `sorted`'s key comparison: by attachment filename. -/
def filename_le (a b : ℕ × Attachment) : Bool :=
  decide (a.2.filename ≤ b.2.filename)

/-- The dropdown's option list: deduplicate by filename, sort by filename,
build the options. -/
def sound_dropdown_options (sound_files : List (ℕ × Attachment)) :
    List SelectOption :=
  ((dedup_by_filename sound_files []).mergeSort filename_le).map mk_select_option

/-! ## Theorems -/

/-- Helper: the ceiling is integer division of `max_filesize * d` by `size`,
clamped to `d`. -/
theorem max_trim_duration_eq (d s mf : ℕ) :
    max_trim_duration d s mf = min (mf * d / s) d := by
  unfold max_trim_duration
  dsimp only
  have hd : d / 60 * 60 + d % 60 = d := Nat.div_add_mod' d 60
  rw [hd]
  have hcast : (mf : ℚ) * ((d : ℚ) / (s : ℚ)) = ((mf * d : ℕ) : ℚ) / ((s : ℕ) : ℚ) := by
    push_cast
    ring
  rw [hcast, Nat.floor_div_nat, Nat.floor_natCast]
  by_cases h : mf * d / s > d
  · simp [h, Nat.min_eq_right (Nat.le_of_lt h)]
  · simp [h, Nat.min_eq_left (Nat.le_of_not_lt h)]

/-- C2: the computed maximum allowed trim duration equals the configured max
published-file-size multiplied by the source's duration-to-size ratio,
truncated to an integer number of seconds, then clamped so it never exceeds
the original duration; for duration 300 s, size 10485760 bytes and
max-publish-size 5242880 bytes the ceiling is 150 s. -/
theorem max_trim_duration_spec :
    (∀ d s mf : ℕ, max_trim_duration d s mf = min (mf * d / s) d) ∧
    max_trim_duration 300 10485760 5242880 = 150 := by
  refine ⟨max_trim_duration_eq, ?_⟩
  rw [max_trim_duration_eq]
  decide

/-- C3: for positive duration `d` and positive size `s` the max-trim ceiling
is at most `d`, and with `d` and `s` fixed it is monotonically non-decreasing
in the max-publish-size limit. -/
theorem max_trim_duration_bounds (d s : ℕ) (hd : 0 < d) (hs : 0 < s)
    (mf mf' : ℕ) (hmf : mf ≤ mf') :
    max_trim_duration d s mf ≤ d ∧
    max_trim_duration d s mf ≤ max_trim_duration d s mf' := by
  rw [max_trim_duration_eq, max_trim_duration_eq]
  refine ⟨min_le_right _ _, ?_⟩
  exact min_le_min (Nat.div_le_div_right (Nat.mul_le_mul_right d hmf)) le_rfl

/-- Witness for C3 at duration 300, size 10485760, limits 5242880 ≤ 10485760. -/
theorem max_trim_duration_bounds_witness :
    max_trim_duration 300 10485760 5242880 ≤ 300 ∧
    max_trim_duration 300 10485760 5242880 ≤ max_trim_duration 300 10485760 10485760 :=
  max_trim_duration_bounds 300 10485760 (by decide) (by decide)
    5242880 10485760 (by decide)

/-- C1 (counterexample): with original duration 300 s and max-trim ceiling
150 s, a submission parsed from start "00:00" and end "05:00" has an end time
exceeding the ceiling (300 > 150), yet — because the validation block is
guarded by `if start_time or end_time != original_duration:` and here the
start is 0 and the end equals the original duration — the session does not
end Failed: the download is submitted. -/
theorem validation_skipped_counterexample :
    (0 = 0 * 60 + 0 ∧ 300 = 5 * 60 + 0 ∧ 5 < 60) ∧
    300 > 150 ∧
    after_button_wait 300 150 10485760 (.accept "music.rickroll" 0 300) =
      [UIAction.submit_download] := by
  refine ⟨by decide, by decide, ?_⟩
  decide

/-- C1 (amended): for an accepted modal submission whose start and end times
parse as MM:SS, provided the start is nonzero or the end differs from the
original duration (otherwise the source skips validation), any violation —
start exceeding the original duration, end exceeding the max-trim ceiling, or
start exceeding end, checked in that order — ends the session Failed with the
specific violation reported and the download never submitted. -/
theorem validation_rejects (d maxDur size : ℕ) (ev : String)
    (st et sm ss em es : ℕ)
    (hsm : sm < 60) (hss : ss < 60) (hem : em < 60) (hes : es < 60)
    (hst : st = sm * 60 + ss) (het : et = em * 60 + es)
    (hguard : st ≠ 0 ∨ et ≠ d)
    (hviol : st > d ∨ et > maxDur ∨ st > et) :
    after_button_wait d maxDur size (.accept ev st et) =
      [.send (if st > d then "The start time is invalid."
              else if et > maxDur then "The end time is invalid."
              else "The start time is greater than the end time.")] ∧
    UIAction.submit_download ∉ after_button_wait d maxDur size (.accept ev st et) := by
  have hv : validate_times d maxDur st et =
      some (if st > d then "The start time is invalid."
            else if et > maxDur then "The end time is invalid."
            else "The start time is greater than the end time.") := by
    unfold validate_times
    rw [if_pos hguard]
    by_cases h1 : st > d
    · simp [h1]
    · rw [if_neg h1]
      by_cases h2 : et > maxDur
      · simp [h1, h2]
      · have h3 : st > et := by
          rcases hviol with h | h | h
          · exact absurd h h1
          · exact absurd h h2
          · exact h
        simp [h1, h2, h3]
  constructor
  · simp only [after_button_wait, hv]
  · simp only [after_button_wait, hv]
    simp

/-- Witness for C1: start "02:00", end "01:00" with original duration 300 s
and ceiling 150 s is rejected as start greater than end, and no download is
submitted. -/
theorem validation_rejects_witness :
    after_button_wait 300 150 10485760 (.accept "music.rickroll" 120 60) =
      [.send "The start time is greater than the end time."] ∧
    UIAction.submit_download ∉
      after_button_wait 300 150 10485760 (.accept "music.rickroll" 120 60) := by
  have h := validation_rejects 300 150 10485760 "music.rickroll" 120 60 2 0 1 0
    (by decide) (by decide) (by decide) (by decide) (by decide) (by decide)
    (Or.inl (by decide)) (Or.inr (Or.inr (by decide)))
  exact ⟨h.1.trans (by decide), h.2⟩

/-- C9: when the confirmation view resolves with no response, the session
ends with the timeout message, no download is submitted, and no message is
edited (the original confirmation message is left unchanged); the view's
timeout is `button_timeout * 2` = 60 seconds. -/
theorem confirmation_timeout_spec (d maxDur size : ℕ) :
    after_button_wait d maxDur size .no_response =
      [.send "You did not select a button in time."] ∧
    UIAction.submit_download ∉ after_button_wait d maxDur size .no_response ∧
    (∀ s, UIAction.edit s ∉ after_button_wait d maxDur size .no_response) ∧
    view_timeout_seconds = settings.audio.button_timeout * 2 ∧
    view_timeout_seconds = 60 := by
  refine ⟨rfl, ?_, ?_, rfl, rfl⟩
  · unfold after_button_wait
    simp
  · intro s
    unfold after_button_wait
    simp

/-- Witness for C9 at duration 300, ceiling 150, size 100. -/
theorem confirmation_timeout_spec_witness :
    after_button_wait 300 150 100 .no_response =
      [.send "You did not select a button in time."] ∧
    UIAction.submit_download ∉ after_button_wait 300 150 100 .no_response ∧
    UIAction.edit "x" ∉ after_button_wait 300 150 100 .no_response ∧
    view_timeout_seconds = settings.audio.button_timeout * 2 ∧
    view_timeout_seconds = 60 :=
  ⟨(confirmation_timeout_spec 300 150 100).1,
   (confirmation_timeout_spec 300 150 100).2.1,
   (confirmation_timeout_spec 300 150 100).2.2.1 "x",
   (confirmation_timeout_spec 300 150 100).2.2.2⟩

/-- Helper for C4: behaviour of `download_loop` from an arbitrary
already-slept time. -/
theorem download_loop_spec_aux (T : ℕ) :
    ∀ (trace : List String) (slept : ℕ), slept ≤ T →
    (slept + poll_count trace ≤ T →
      download_loop T slept trace =
        match first_terminal trace with
        | some s => if s = "finished" then DownloadExit.finished (slept + poll_count trace)
                    else DownloadExit.failed s (slept + poll_count trace)
        | none => DownloadExit.out_of_trace) ∧
    (T < slept + poll_count trace → download_loop T slept trace = DownloadExit.timed_out) := by
  intro trace
  induction trace with
  | nil =>
    intro slept hle
    refine ⟨fun _ => rfl, fun h => ?_⟩
    simp [poll_count] at h
    omega
  | cons s rest ih =>
    intro slept hle
    by_cases hf : s = "finished"
    · subst hf
      have hpc : poll_count ("finished" :: rest) = 0 := by
        simp [poll_count, busy_status]
      have hft : first_terminal ("finished" :: rest) = some "finished" := by
        simp [first_terminal, busy_status]
      refine ⟨fun _ => ?_, fun h => ?_⟩
      · rw [hpc, hft]
        simp [download_loop]
      · rw [hpc] at h
        omega
    · by_cases hd : s = "downloading"
      · subst hd
        have hpc : poll_count ("downloading" :: rest) = poll_count rest + 1 := by
          simp [poll_count, busy_status, List.count_cons]
        have hft : first_terminal ("downloading" :: rest) = first_terminal rest := by
          simp [first_terminal, busy_status]
        have hloop : download_loop T slept ("downloading" :: rest) =
            if slept + 1 > T then DownloadExit.timed_out
            else download_loop T (slept + 1) rest := by
          simp [download_loop]
        by_cases ht : slept + 1 > T
        · have hs : slept = T := by omega
          refine ⟨fun hb => ?_, fun _ => ?_⟩
          · rw [hpc] at hb
            omega
          · rw [hloop, if_pos ht]
        · have h1 : slept + 1 ≤ T := by omega
          obtain ⟨iha, ihb⟩ := ih (slept + 1) h1
          refine ⟨fun hb => ?_, fun hb => ?_⟩
          · rw [hpc] at hb
            rw [hloop, if_neg ht, hft, hpc]
            have harith : slept + (poll_count rest + 1) = slept + 1 + poll_count rest := by
              omega
            rw [harith]
            exact iha (by omega)
          · rw [hpc] at hb
            rw [hloop, if_neg ht]
            exact ihb (by omega)
      · by_cases he : s = ""
        · subst he
          have hpc : poll_count ("" :: rest) = poll_count rest := by
            simp [poll_count, busy_status, List.count_cons]
          have hft : first_terminal ("" :: rest) = first_terminal rest := by
            simp [first_terminal, busy_status]
          have hloop : download_loop T slept ("" :: rest) =
              download_loop T slept rest := by
            simp [download_loop]
          obtain ⟨iha, ihb⟩ := ih slept hle
          refine ⟨fun hb => ?_, fun hb => ?_⟩
          · rw [hpc] at hb
            rw [hloop, hft]
            exact iha hb
          · rw [hpc] at hb
            rw [hloop]
            exact ihb hb
        · have hbusy : busy_status s = false := by
            simp [busy_status, hd, he]
          have hpc : poll_count (s :: rest) = 0 := by
            simp [poll_count, List.takeWhile_cons, hbusy]
          have hft : first_terminal (s :: rest) = some s := by
            simp [first_terminal, List.dropWhile_cons, hbusy]
          have hloop : download_loop T slept (s :: rest) =
              DownloadExit.failed s slept := by
            simp [download_loop, hf, hd, he]
          refine ⟨fun _ => ?_, fun h => ?_⟩
          · rw [hpc, hft, hloop]
            simp [hf]
          · rw [hpc] at h
            omega

/-- Helper for C4: the loop iterations only ever edit the progress message —
no iteration, timed out or not, sends anything. -/
theorem download_loop_actions_no_send (T : ℕ) :
    ∀ (trace : List ProgressSnapshot) (slept : ℕ) (s : String),
    UIAction.send s ∉ download_loop_actions T slept trace := by
  intro trace
  induction trace with
  | nil =>
    intro slept s
    simp [download_loop_actions]
  | cons p rest ih =>
    intro slept s
    rw [download_loop_actions]
    by_cases hf : p.status = "finished"
    · simp [hf]
    · rw [if_neg hf]
      by_cases hd : p.status = "downloading"
      · rw [if_pos hd]
        by_cases ht : slept + 1 > T
        · simp [ht]
        · simp only [if_neg ht, List.mem_cons, not_or]
          exact ⟨fun h => UIAction.noConfusion h, ih (slept + 1) s⟩
      · rw [if_neg hd]
        by_cases he : p.status = ""
        · rw [if_pos (Or.inr he)]
          exact ih slept s
        · rw [if_neg (by simp [hd, he])]
          simp

/-- C4 (counterexample): with `download_timeout = 0` and a snapshot trace
observing "downloading", the loop ends `timed_out`, and the complete list of
user-visible actions from entering the `async with` block until the session
ends is the single progress edit — in particular it contains no send, so the
timeout is not reported to the user. -/
theorem download_timeout_unreported_counterexample :
    download_loop 0 0 ["downloading"] = DownloadExit.timed_out ∧
    manage_actions_on_timeout 0 [⟨"downloading", "  0.0%", "1.00MiB/s", "00:10"⟩] =
      [UIAction.edit (progress_description
        ⟨"downloading", "  0.0%", "1.00MiB/s", "00:10"⟩)] ∧
    (manage_actions_on_timeout 0
      [⟨"downloading", "  0.0%", "1.00MiB/s", "00:10"⟩]).any UIAction.is_send =
      false := by
  refine ⟨by decide, by decide, by decide⟩

/-- C4 (amended): over any trace of observed progress snapshots, the
download loop sleeps exactly 1 second per "downloading" observation (editing
the status message), re-enters without sleeping on "", and ends at the first
other status — `finished` on "finished", failure on an unrecognized status —
with total sleep `poll_count`; when the accumulated sleep would exceed the
`download_timeout` bound the loop instead ends `timed_out`, and the
resulting `TimeoutError` propagates uncaught out of `manage`, so the session
ends with no message reporting the timeout sent to the user. -/
theorem download_loop_timeout_spec (trace : List ProgressSnapshot) (T : ℕ) :
    (poll_count (trace.map ProgressSnapshot.status) ≤ T →
      download_loop T 0 (trace.map ProgressSnapshot.status) =
        match first_terminal (trace.map ProgressSnapshot.status) with
        | some s => if s = "finished"
            then DownloadExit.finished (poll_count (trace.map ProgressSnapshot.status))
            else DownloadExit.failed s (poll_count (trace.map ProgressSnapshot.status))
        | none => DownloadExit.out_of_trace) ∧
    (T < poll_count (trace.map ProgressSnapshot.status) →
      download_loop T 0 (trace.map ProgressSnapshot.status) = DownloadExit.timed_out) ∧
    (∀ s, UIAction.send s ∉ manage_actions_on_timeout T trace) := by
  have h := download_loop_spec_aux T (trace.map ProgressSnapshot.status) 0 (Nat.zero_le T)
  refine ⟨?_, ?_, ?_⟩
  · intro hb
    simpa using h.1 (by simpa using hb)
  · intro hb
    simpa using h.2 (by simpa using hb)
  · intro s
    exact download_loop_actions_no_send T trace 0 s

/-- Witness for C4: a two-poll downloading trace against a 1-second budget
times out, and no send — in particular none reporting the timeout — appears
among the session's remaining user-visible actions. -/
theorem download_loop_timeout_spec_witness :
    download_loop 1 0
        (([⟨"downloading", "  0.0%", "1.00MiB/s", "00:10"⟩,
           ⟨"downloading", " 50.0%", "1.00MiB/s", "00:05"⟩] :
          List ProgressSnapshot).map ProgressSnapshot.status) =
      DownloadExit.timed_out ∧
    UIAction.send "timed out" ∉ manage_actions_on_timeout 1
      [⟨"downloading", "  0.0%", "1.00MiB/s", "00:10"⟩,
       ⟨"downloading", " 50.0%", "1.00MiB/s", "00:05"⟩] :=
  ⟨(download_loop_timeout_spec
      [⟨"downloading", "  0.0%", "1.00MiB/s", "00:10"⟩,
       ⟨"downloading", " 50.0%", "1.00MiB/s", "00:05"⟩] 1).2.1 (by decide),
   (download_loop_timeout_spec
      [⟨"downloading", "  0.0%", "1.00MiB/s", "00:10"⟩,
       ⟨"downloading", " 50.0%", "1.00MiB/s", "00:05"⟩] 1).2.2 "timed out"⟩

/-- C5: `is_url_supported(url)` is true iff the url ends with one of the
configured directly-downloadable extensions or some registered non-generic
site-extractor declares itself suitable; it is total (never raises);
"clip.mp3" is accepted for every extractor registry; and a url with no
matching extension is rejected when no registered extractor is suitable. -/
theorem is_url_supported_spec (extractors : List Extractor) (url : String) :
    (is_url_supported extractors url = true ↔
      (∃ ext ∈ SUPPORTED_EXTENSIONS, str_endswith url ext = true) ∨
      (∃ e ∈ extractors, e.suitable url = true ∧ e.ie_name ≠ "generic")) ∧
    (∀ registry : List Extractor, is_url_supported registry "clip.mp3" = true) ∧
    ((∀ e ∈ extractors, e.suitable "https://example.invalid/x" = false) →
      is_url_supported extractors "https://example.invalid/x" = false) := by
  have hor : ∀ (ex : List Extractor) (u : String),
      is_url_supported ex u =
        (SUPPORTED_EXTENSIONS.any (fun ext => str_endswith u ext) ||
         ex.any (fun e => e.suitable u && e.ie_name != "generic")) := by
    intro ex u
    unfold is_url_supported
    cases SUPPORTED_EXTENSIONS.any (fun ext => str_endswith u ext) <;> simp
  refine ⟨?_, ?_, ?_⟩
  · rw [hor]
    simp [List.any_eq_true, Bool.and_eq_true, bne_iff_ne]
  · intro registry
    rw [hor]
    have hmp3 : SUPPORTED_EXTENSIONS.any (fun ext => str_endswith "clip.mp3" ext) = true := by
      decide
    rw [hmp3]
    rfl
  · intro h
    rw [hor]
    have hno : SUPPORTED_EXTENSIONS.any
        (fun ext => str_endswith "https://example.invalid/x" ext) = false := by
      decide
    rw [hno]
    simp only [Bool.false_or, List.any_eq_false]
    intro e he
    simp [h e he]

/-- Witness for C5 with the empty extractor registry. -/
theorem is_url_supported_spec_witness :
    is_url_supported [] "clip.mp3" = true ∧
    is_url_supported [] "https://example.invalid/x" = false :=
  ⟨(is_url_supported_spec [] "clip.mp3").2.1 [],
   (is_url_supported_spec [] "https://example.invalid/x").2.2 (by simp)⟩

/-- C7: `normalize_sound` loads the input file; when `end_time` is nonzero it
slices to `[start_time, end_time]` (in ms); when `fade_duration` is nonzero
it fades in and out by that duration; when `loudness` is nonzero it applies
uniform gain `loudness - dBFS` measured on the sliced and faded clip; and it
exports with the requested format, bitrate and sample rate to the input path
with its extension replaced by the output format's extension. -/
theorem normalize_sound_spec (dBFS : AudioSegment → ℚ) (path : FsPath)
    (st et : ℕ) (fmt br : String) (sr fd : ℕ) (ld : ℤ) :
    (normalize_sound dBFS path st et fmt br sr fd ld).audio =
      ⟨path.stem ++ path.suffix,
        ((if et ≠ 0 then [AudioOp.slice (st * 1000) (et * 1000)] else []) ++
          (if fd ≠ 0 then [AudioOp.fade_in fd, AudioOp.fade_out fd] else [])) ++
        (if ld ≠ 0 then
          [AudioOp.apply_gain ((ld : ℚ) - dBFS
            ⟨path.stem ++ path.suffix,
              (if et ≠ 0 then [AudioOp.slice (st * 1000) (et * 1000)] else []) ++
              (if fd ≠ 0 then [AudioOp.fade_in fd, AudioOp.fade_out fd] else [])⟩)]
         else [])⟩ ∧
    (normalize_sound dBFS path st et fmt br sr fd ld).out_path =
      path.with_suffix ("." ++ fmt) ∧
    (normalize_sound dBFS path st et fmt br sr fd ld).out_format = fmt ∧
    (normalize_sound dBFS path st et fmt br sr fd ld).bitrate = br ∧
    (normalize_sound dBFS path st et fmt br sr fd ld).parameters =
      ["-ar", toString sr] := by
  refine ⟨?_, rfl, rfl, rfl, rfl⟩
  by_cases het : et ≠ 0 <;> by_cases hfd : fd ≠ 0 <;> by_cases hld : ld ≠ 0 <;>
    simp [normalize_sound, AudioSegment.from_file, het, hfd, hld]

/-- C10: with `end_time = 0` no truncation happens at all: `start_time` is
silently ignored (the result coincides with a call passing `start_time = 0`)
and the exported audio carries no slice operation. -/
theorem normalize_sound_zero_end_ignores_start (dBFS : AudioSegment → ℚ)
    (path : FsPath) (st : ℕ) (fmt br : String) (sr fd : ℕ) (ld : ℤ) :
    normalize_sound dBFS path st 0 fmt br sr fd ld =
      normalize_sound dBFS path 0 0 fmt br sr fd ld ∧
    ∀ a b : ℤ, AudioOp.slice a b ∉
      (normalize_sound dBFS path st 0 fmt br sr fd ld).audio.ops := by
  constructor
  · simp [normalize_sound]
  · intro a b
    by_cases hfd : fd ≠ 0 <;> by_cases hld : ld ≠ 0 <;>
      simp [normalize_sound, AudioSegment.from_file, hfd, hld]

/-- Witness for C10 at a concrete input with nonzero start time 7. -/
theorem normalize_sound_zero_end_ignores_start_witness :
    normalize_sound (fun _ => 0) ⟨"video", ".webm"⟩ 7 0 "ogg" "64k" 32000 1000 (-16) =
      normalize_sound (fun _ => 0) ⟨"video", ".webm"⟩ 0 0 "ogg" "64k" 32000 1000 (-16) :=
  (normalize_sound_zero_end_ignores_start (fun _ => 0) ⟨"video", ".webm"⟩ 7
    "ogg" "64k" 32000 1000 (-16)).1

/-- Helper for C6: on a label list whose last element is `L` and in which `L`
occurs nowhere else, the unit loop returns the value divided by
`step ^ k` and the label at index `k`, where `k` is the first index whose
scaled value is below the threshold (all earlier indices are at or above it),
capped at the last index. -/
theorem pick_unit_spec (thresh step : ℚ) (L : String) :
    ∀ (labels : List String) (base : ℚ) (u0 : String),
    labels ≠ [] →
    labels.getLast? = some L →
    (∀ x ∈ labels.dropLast, x ≠ L) →
    ∃ k, k < labels.length ∧
      pick_unit thresh step L base u0 labels = (base / step ^ k, labels.getD k "") ∧
      (∀ j < k, thresh ≤ base / step ^ j) ∧
      (k + 1 < labels.length → base / step ^ k < thresh) := by
  intro labels
  induction labels with
  | nil =>
    intro base u0 hne _ _
    exact absurd rfl hne
  | cons u rest ih =>
    intro base u0 _ hlast hdrop
    by_cases hb : base < thresh
    · refine ⟨0, by simp, ?_, fun j hj => absurd hj (Nat.not_lt_zero j), fun _ => ?_⟩
      · simp [pick_unit, hb]
      · simpa using hb
    · cases rest with
      | nil =>
        have huL : u = L := by simpa using hlast
        refine ⟨0, by simp, ?_, fun j hj => absurd hj (Nat.not_lt_zero j), ?_⟩
        · simp [pick_unit, hb, huL]
        · intro h
          simp at h
      | cons v t =>
        have huL : u ≠ L := hdrop u (by simp)
        have hlast' : (v :: t).getLast? = some L := by
          simpa [List.getLast?_cons_cons] using hlast
        have hdrop' : ∀ x ∈ (v :: t).dropLast, x ≠ L := by
          intro x hx
          exact hdrop x (by simp [List.dropLast, hx])
        obtain ⟨k, hk, heq, hle, hlt⟩ := ih (base / step) u (by simp) hlast' hdrop'
        refine ⟨k + 1, by simpa using Nat.succ_lt_succ hk, ?_, ?_, ?_⟩
        · have hstep1 : pick_unit thresh step L base u0 (u :: v :: t) =
              pick_unit thresh step L (base / step) u (v :: t) := by
            simp [pick_unit, hb, huL]
          rw [hstep1, heq, div_div, ← pow_succ', List.getD_cons_succ]
        · intro j hj
          cases j with
          | zero => simpa using not_lt.mp hb
          | succ j' =>
            have h := hle j' (by omega)
            rwa [div_div, ← pow_succ'] at h
        · intro h
          have h2 := hlt (by simpa using Nat.lt_of_succ_lt_succ h)
          rwa [div_div, ← pow_succ'] at h2

/-- C6: for every numeric input and precision, `format_bytes` prints the
value scaled into the unit at the first index where it drops below the
rounding-aware threshold `unit_step - precision_offsets[precision]` — all
smaller units leave it at or above the threshold — capped at the largest
label; and every negative input is printed as a leading "-" followed by
exactly the formatting of the positive magnitude. -/
theorem format_bytes_spec (num : ℚ) (metric : Bool) (precision : Fin 4) :
    (∃ k, k < 9 ∧
      format_bytes num metric precision =
        (if num < 0 then "-" else "") ++
          render_fixed (|num| / (if metric then (1000 : ℚ) else 1024) ^ k) precision ++
          " " ++ (if metric then metric_labels else binary_labels).getD k "" ∧
      (∀ j < k,
        (if metric then (1000 : ℚ) else 1024) - precision_offset precision ≤
          |num| / (if metric then (1000 : ℚ) else 1024) ^ j) ∧
      (k + 1 < 9 →
        |num| / (if metric then (1000 : ℚ) else 1024) ^ k <
          (if metric then (1000 : ℚ) else 1024) - precision_offset precision)) ∧
    (num < 0 →
      format_bytes num metric precision = "-" ++ format_bytes (-num) metric precision) := by
  constructor
  · have habs : (if num < 0 then -num else num) = |num| := by
      by_cases h : num < 0
      · simp [h, abs_of_neg h]
      · simp [h, abs_of_nonneg (not_lt.mp h)]
    cases metric
    · obtain ⟨k, hk, heq, hle, hlt⟩ :=
        pick_unit_spec (1024 - precision_offset precision) 1024
          (binary_labels.getLastD "") binary_labels
          (if num < 0 then -num else num) "" (by decide) (by decide) (by decide)
      refine ⟨k, by simpa [binary_labels] using hk, ?_, ?_, ?_⟩
      · show (if num < 0 then "-" else "") ++
          render_fixed (pick_unit (1024 - precision_offset precision) 1024
            (binary_labels.getLastD "") (if num < 0 then -num else num) ""
            binary_labels).1 precision ++ " " ++
          (pick_unit (1024 - precision_offset precision) 1024
            (binary_labels.getLastD "") (if num < 0 then -num else num) ""
            binary_labels).2 = _
        rw [heq, habs]
        rfl
      · intro j hj
        have h := hle j hj
        rwa [habs] at h
      · intro h
        have h2 := hlt (by simpa [binary_labels] using h)
        rwa [habs] at h2
    · obtain ⟨k, hk, heq, hle, hlt⟩ :=
        pick_unit_spec (1000 - precision_offset precision) 1000
          (metric_labels.getLastD "") metric_labels
          (if num < 0 then -num else num) "" (by decide) (by decide) (by decide)
      refine ⟨k, by simpa [metric_labels] using hk, ?_, ?_, ?_⟩
      · show (if num < 0 then "-" else "") ++
          render_fixed (pick_unit (1000 - precision_offset precision) 1000
            (metric_labels.getLastD "") (if num < 0 then -num else num) ""
            metric_labels).1 precision ++ " " ++
          (pick_unit (1000 - precision_offset precision) 1000
            (metric_labels.getLastD "") (if num < 0 then -num else num) ""
            metric_labels).2 = _
        rw [heq, habs]
        rfl
      · intro j hj
        have h := hle j hj
        rwa [habs] at h
      · intro h
        have h2 := hlt (by simpa [metric_labels] using h)
        rwa [habs] at h2
  · intro hn
    have hpos : ¬(-num < 0) := by
      simp only [not_lt]
      exact le_of_lt (neg_pos.mpr hn)
    simp [format_bytes, hn, hpos, String.append_assoc]

/-- Witness for C6: a negative input is the "-"-prefixed formatting of its
magnitude. -/
theorem format_bytes_spec_witness :
    format_bytes (-5 : ℚ) false 1 = "-" ++ format_bytes (5 : ℚ) false 1 :=
  (format_bytes_spec (-5) false 1).2 (by decide)

/-- Helper for C8: a filename survives deduplication iff it occurs in the
input and is not in the seen-set. -/
theorem dedup_filename_mem (files : List (ℕ × Attachment)) (seen : List String)
    (f : String) :
    f ∈ (dedup_by_filename files seen).map (fun p => p.2.filename) ↔
      f ∈ files.map (fun p => p.2.filename) ∧ f ∉ seen := by
  induction files generalizing seen with
  | nil => simp [dedup_by_filename]
  | cons p rest ih =>
    obtain ⟨m, a⟩ := p
    by_cases h : a.filename ∈ seen
    · rw [show dedup_by_filename ((m, a) :: rest) seen =
          dedup_by_filename rest seen by simp [dedup_by_filename, h]]
      rw [ih]
      simp only [List.map_cons, List.mem_cons]
      constructor
      · rintro ⟨hf, hs⟩
        exact ⟨Or.inr hf, hs⟩
      · rintro ⟨hf | hf, hs⟩
        · exact absurd (hf ▸ h) hs
        · exact ⟨hf, hs⟩
    · rw [show dedup_by_filename ((m, a) :: rest) seen =
          (m, a) :: dedup_by_filename rest (a.filename :: seen) by
        simp [dedup_by_filename, h]]
      simp only [List.map_cons, List.mem_cons]
      rw [ih]
      constructor
      · rintro (hf | ⟨hf, hs⟩)
        · exact ⟨Or.inl hf, hf ▸ h⟩
        · refine ⟨Or.inr hf, fun hs2 => hs (List.mem_cons_of_mem _ hs2)⟩
      · rintro ⟨hf | hf, hs⟩
        · exact Or.inl hf
        · by_cases hfa : f = a.filename
          · exact Or.inl hfa
          · exact Or.inr ⟨hf, by simp [hfa, hs]⟩

/-- Helper for C8: the deduplicated filenames contain no duplicate. -/
theorem dedup_filename_nodup (files : List (ℕ × Attachment)) (seen : List String) :
    ((dedup_by_filename files seen).map (fun p => p.2.filename)).Nodup := by
  induction files generalizing seen with
  | nil => simp [dedup_by_filename]
  | cons p rest ih =>
    obtain ⟨m, a⟩ := p
    by_cases h : a.filename ∈ seen
    · rw [show dedup_by_filename ((m, a) :: rest) seen =
          dedup_by_filename rest seen by simp [dedup_by_filename, h]]
      exact ih seen
    · rw [show dedup_by_filename ((m, a) :: rest) seen =
          (m, a) :: dedup_by_filename rest (a.filename :: seen) by
        simp [dedup_by_filename, h]]
      simp only [List.map_cons]
      refine List.nodup_cons.mpr ⟨?_, ih _⟩
      rw [dedup_filename_mem]
      rintro ⟨_, hmem⟩
      exact hmem (List.mem_cons_self _ _)

/-- Helper for C8: the filename comparison is transitive. -/
theorem filename_le_trans (a b c : ℕ × Attachment)
    (hab : filename_le a b = true) (hbc : filename_le b c = true) :
    filename_le a c = true := by
  simp only [filename_le, decide_eq_true_eq] at *
  exact le_trans hab hbc

/-- Helper for C8: the filename comparison is total. -/
theorem filename_le_total (a b : ℕ × Attachment) :
    (filename_le a b || filename_le b a) = true := by
  simp only [filename_le, Bool.or_eq_true, decide_eq_true_eq]
  exact le_total _ _

/-- Helper for C8: a pairwise-`≤` list of pairs whose filenames are distinct
is pairwise-`<` on filenames. -/
theorem pairwise_filename_lt (L : List (ℕ × Attachment))
    (hle : L.Pairwise (fun a b => filename_le a b = true))
    (hnd : (L.map (fun p => p.2.filename)).Nodup) :
    L.Pairwise (fun a b => a.2.filename < b.2.filename) := by
  have hne : L.Pairwise (fun a b => a.2.filename ≠ b.2.filename) :=
    List.pairwise_map.mp hnd
  exact List.Pairwise.imp
    (fun h => lt_of_le_of_ne (by simpa [filename_le] using h.1) h.2)
    (hle.and hne)

/-- C8: the removal dropdown presents each distinct attachment filename
exactly once (no duplicate values, and a filename appears iff it occurs among
the channel's sound files), sorted by filename; and the option list is
independent of the enumeration order of the deduplicated set, so building
the dropdown twice from the same unmutated contents yields the same
options. -/
theorem sound_dropdown_options_spec (files : List (ℕ × Attachment)) :
    ((sound_dropdown_options files).map SelectOption.value).Nodup ∧
    (∀ f, f ∈ (sound_dropdown_options files).map SelectOption.value ↔
      f ∈ files.map (fun p => p.2.filename)) ∧
    ((sound_dropdown_options files).map SelectOption.value).Sorted (· ≤ ·) ∧
    (∀ l : List (ℕ × Attachment), l.Perm (dedup_by_filename files []) →
      (l.mergeSort filename_le).map mk_select_option = sound_dropdown_options files) := by
  have hmapv : (sound_dropdown_options files).map SelectOption.value =
      ((dedup_by_filename files []).mergeSort filename_le).map
        (fun p => p.2.filename) := by
    rw [sound_dropdown_options, List.map_map]
    rfl
  have hperm : ((dedup_by_filename files []).mergeSort filename_le).Perm
      (dedup_by_filename files []) := List.mergeSort_perm _ _
  have hpermmap := hperm.map (fun p : ℕ × Attachment => p.2.filename)
  have hnd : (((dedup_by_filename files []).mergeSort filename_le).map
      (fun p => p.2.filename)).Nodup :=
    hpermmap.nodup_iff.mpr (dedup_filename_nodup files [])
  have hsorted := List.sorted_mergeSort filename_le_trans filename_le_total
    (dedup_by_filename files [])
  refine ⟨?_, ?_, ?_, ?_⟩
  · rw [hmapv]
    exact hnd
  · intro f
    rw [hmapv, hpermmap.mem_iff, dedup_filename_mem]
    simp
  · rw [hmapv]
    refine List.pairwise_map.mpr ?_
    exact List.Pairwise.imp (fun h => by simpa [filename_le] using h) hsorted
  · intro l hper
    have h1 : (l.mergeSort filename_le).Perm
        ((dedup_by_filename files []).mergeSort filename_le) :=
      (List.mergeSort_perm l _).trans (hper.trans hperm.symm)
    have hs1 := List.sorted_mergeSort filename_le_trans filename_le_total l
    have hnd1 : ((l.mergeSort filename_le).map (fun p => p.2.filename)).Nodup :=
      ((h1.map _).nodup_iff).mpr hnd
    have e : l.mergeSort filename_le =
        (dedup_by_filename files []).mergeSort filename_le := by
      haveI : IsAntisymm (ℕ × Attachment) (fun a b => a.2.filename < b.2.filename) :=
        ⟨fun a b h h2 => absurd h2 (not_lt.mpr (le_of_lt h))⟩
      exact List.eq_of_perm_of_sorted h1
        (pairwise_filename_lt _ hs1 hnd1)
        (pairwise_filename_lt _ hsorted hnd)
    rw [sound_dropdown_options, e]

/-- Witness for C8: reordering the deduplicated pairs leaves the option list
unchanged. -/
theorem sound_dropdown_options_spec_witness :
    ([(1, ⟨"a.ogg", "first", 100⟩), (0, ⟨"b.ogg", "second", 200⟩)].mergeSort
        filename_le).map mk_select_option =
      sound_dropdown_options
        [(0, ⟨"b.ogg", "second", 200⟩), (1, ⟨"a.ogg", "first", 100⟩),
         (2, ⟨"b.ogg", "third", 300⟩)] :=
  (sound_dropdown_options_spec
    [(0, ⟨"b.ogg", "second", 200⟩), (1, ⟨"a.ogg", "first", 100⟩),
     (2, ⟨"b.ogg", "third", 300⟩)]).2.2.2
    [(1, ⟨"a.ogg", "first", 100⟩), (0, ⟨"b.ogg", "second", 200⟩)] (by decide)

end PackBot
